import Mathlib

/-!
Verification of the img_to_sound pixel-to-audio synthesis pipeline.
The definitions below are a shallow embedding of src/img_to_sound.c:
machine floats are modelled over the reals (rationals where the code is
purely finite arithmetic), byte channel values as natural numbers, and
the per-column scan loop as a structural recursion over the row list.
-/

namespace ImgToSound

/-- An RGB pixel: three 8-bit channel values modelled as natural numbers
in the range 0 to 255. -/
structure Pixel where
  r : Nat
  g : Nat
  b : Nat
  deriving DecidableEq

/-- The closed waveform enumeration from the C source (WAVE_SINE, WAVE_SAW,
WAVE_TRIANGLE, WAVE_SQUARE). -/
inductive Wave
  | sine
  | saw
  | triangle
  | square
  deriving DecidableEq

/-- Embedding of key_to_frequency: float p = (n - 49.0) / 12.0;
return 440.0 * powf(2, p). Total on all integers. -/
noncomputable def key_to_frequency (n : ℤ) : ℝ :=
  440 * (2 : ℝ) ^ (((n : ℝ) - 49) / 12)

/-- Embedding of saw: float x = t * f; return x - floorf(x) - 0.5. -/
noncomputable def saw (t f : ℝ) : ℝ :=
  t * f - (⌊t * f⌋ : ℝ) - 1 / 2

/-- Embedding of sine: return sin(2*f*t). The angular argument really is
2*f*t in the source, with no factor of pi. -/
noncomputable def sine (t f : ℝ) : ℝ :=
  Real.sin (2 * f * t)

/-- Embedding of triangle: return 2 * fabs(saw(t, f)) - 0.5. -/
noncomputable def triangle (t f : ℝ) : ℝ :=
  2 * |saw t f| - 1 / 2

/-- Embedding of square: float x = f*t;
return 4*floorf(x) - 2*floorf(2*x) + 1. -/
noncomputable def square (t f : ℝ) : ℝ :=
  4 * (⌊f * t⌋ : ℝ) - 2 * (⌊2 * (f * t)⌋ : ℝ) + 1

/-- Embedding of color_to_amplitude: x = (r > g) ? r : g;
x = (x > b) ? x : b; return (float)x / 255.0. -/
def color_to_amplitude (r g b : Nat) : ℚ :=
  let x := if g < r then r else g
  let y := if b < x then x else b
  (y : ℚ) / 255

/-- Embedding of color_to_wave: the three strict-dominance tests in source
order, with sawtooth as the fall-through default. -/
def color_to_wave (r g b : Nat) : Wave :=
  if g < r ∧ b < r then Wave.sine
  else if r < g ∧ b < g then Wave.square
  else if r < b ∧ g < b then Wave.triangle
  else Wave.saw

/-- Claim C3: the frequency mapper is total on all integer pitch indices and
computes 440 * 2 ^ ((n - 49) / 12); frequency 49 equals 440 and frequency is
doubled by adding 12 to the key index. -/
theorem C3_key_to_frequency :
    key_to_frequency 49 = 440 ∧
    (∀ n : ℤ, key_to_frequency (n + 12) = 2 * key_to_frequency n) ∧
    (∀ n : ℤ, key_to_frequency n = 440 * (2 : ℝ) ^ (((n : ℝ) - 49) / 12)) := by
  refine ⟨?_, ?_, fun n => rfl⟩
  · unfold key_to_frequency
    have h : (((49 : ℤ) : ℝ) - 49) / 12 = 0 := by norm_num
    rw [h, Real.rpow_zero]
    norm_num
  · intro n
    unfold key_to_frequency
    have h : (((n + 12 : ℤ) : ℝ) - 49) / 12 = ((n : ℝ) - 49) / 12 + 1 := by
      push_cast
      ring
    rw [h, Real.rpow_add (by norm_num : (0 : ℝ) < 2), Real.rpow_one]
    ring

/-- Claim C4: color_to_wave returns Sine when red is strictly greatest,
Square when green is strictly greatest, Triangle when blue is strictly
greatest, and Sawtooth whenever no channel is strictly dominant. -/
theorem C4_color_to_wave (r g b : Nat) :
    (g < r ∧ b < r → color_to_wave r g b = Wave.sine) ∧
    (r < g ∧ b < g → color_to_wave r g b = Wave.square) ∧
    (r < b ∧ g < b → color_to_wave r g b = Wave.triangle) ∧
    (¬(g < r ∧ b < r) ∧ ¬(r < g ∧ b < g) ∧ ¬(r < b ∧ g < b) →
      color_to_wave r g b = Wave.saw) := by
  unfold color_to_wave
  refine ⟨fun h => ?_, fun h => ?_, fun h => ?_, fun h => ?_⟩
  · rw [if_pos h]
  · obtain ⟨h1, h2⟩ := h
    rw [if_neg (by omega), if_pos ⟨h1, h2⟩]
  · obtain ⟨h1, h2⟩ := h
    rw [if_neg (by omega), if_neg (by omega), if_pos ⟨h1, h2⟩]
  · obtain ⟨h1, h2, h3⟩ := h
    rw [if_neg h1, if_neg h2, if_neg h3]

/-- Witness for claim C4 at concrete channel triples. -/
theorem C4_witness :
    color_to_wave 2 1 0 = Wave.sine ∧ color_to_wave 1 2 0 = Wave.square ∧
    color_to_wave 0 1 2 = Wave.triangle ∧ color_to_wave 3 3 1 = Wave.saw :=
  ⟨(C4_color_to_wave 2 1 0).1 (by decide),
   (C4_color_to_wave 1 2 0).2.1 (by decide),
   (C4_color_to_wave 0 1 2).2.2.1 (by decide),
   (C4_color_to_wave 3 3 1).2.2.2 (by decide)⟩

/-- Claim C6: the sine generator returns sin(2*f*t) for all finite times and
frequencies, and at t = 1/2, f = 1 its value differs from the standard
convention sin(2*pi*f*t), so the missing factor of pi is real. -/
theorem C6_sine_formula :
    (∀ t f : ℝ, sine t f = Real.sin (2 * f * t)) ∧
    sine (1 / 2) 1 ≠ Real.sin (2 * Real.pi * 1 * (1 / 2)) := by
  refine ⟨fun t f => rfl, ?_⟩
  have h1 : sine (1 / 2) 1 = Real.sin 1 := by
    unfold sine
    norm_num
  have h2 : Real.sin (2 * Real.pi * 1 * (1 / 2)) = 0 := by
    have h : 2 * Real.pi * 1 * (1 / 2) = Real.pi := by ring
    rw [h, Real.sin_pi]
  have h3 : 0 < Real.sin 1 :=
    Real.sin_pos_of_pos_of_lt_pi (by norm_num) (by linarith [Real.pi_gt_three])
  rw [h1, h2]
  linarith

/-- The num_keys constant from process: number of pitch lanes scanned. -/
def num_keys : Nat := 88

/-- The max_notes constant from process: maximum simultaneous notes
(polyphony cap), commented inclusive in the source. -/
def max_notes : Nat := 12

/-- Embedding of end_y from process:
(h - oy < num_keys) ? h : (oy + num_keys). -/
def end_y (h oy : Nat) : Nat :=
  if h - oy < num_keys then h else oy + num_keys

/-- The list of row coordinates scanned for one column: y from oy up to
end_y - 1, matching the for loop in process. -/
def scanRows (h oy : Nat) : List Nat :=
  List.range' oy (end_y h oy - oy)

/-- Embedding of the pitch computation key = num_keys - (y - oy) at line 254
of the source. -/
def rowKey (oy y : Nat) : Nat :=
  num_keys - (y - oy)

/-- A note event produced for one active pixel during a column scan: the row
it came from, its piano key, the normalized amplitude handed to the
synthesizer, and the waveform kind. -/
structure Note where
  y : Nat
  key : Nat
  amp : ℚ
  wave : Wave
  deriving DecidableEq

/-- Embedding of the inner row loop of process for one column: walks the
scanned rows carrying the running note counter, emits a note event per
active (non-black) pixel, and stops early with the overflow report once the
counter exceeds max_notes. Returns the note events in scan order, the final
counter, and whether the overflow report fired. -/
def scanNotes (px : Nat → Pixel) (oy : Nat) : List Nat → Nat → List Note × Nat × Bool
  | [], notes => ([], notes, false)
  | y :: ys, notes =>
    if max_notes < notes then
      ([], notes, true)
    else if (px y).r = 0 ∧ (px y).g = 0 ∧ (px y).b = 0 then
      scanNotes px oy ys notes
    else
      ((⟨y, rowKey oy y,
          color_to_amplitude (px y).r (px y).g (px y).b / (max_notes : ℚ),
          color_to_wave (px y).r (px y).g (px y).b⟩ : Note)
        :: (scanNotes px oy ys (notes + 1)).1,
       (scanNotes px oy ys (notes + 1)).2)

/-- A concrete column accessor with 13 active (red) pixels in rows 0 to 12
and black pixels everywhere below. -/
def px13 : Nat → Pixel :=
  fun y => if y < 13 then ⟨255, 0, 0⟩ else ⟨0, 0, 0⟩

/-- Claim C1 (code evaluated at the failing input): scanning a 14-row window
whose first 13 pixels are active synthesizes 13 notes, one more than the
polyphony cap of 12, because the counter test runs before each row rather
than after each increment; the overflow report does fire. -/
theorem C1_overflow_off_by_one :
    (scanNotes px13 0 (scanRows 14 0) 0).1.length = 13 ∧
    (scanNotes px13 0 (scanRows 14 0) 0).2.2 = true := by
  decide

/-- Claim C5: every note event handed to the synthesizer carries amplitude
color_to_amplitude of its own pixel divided by the configured cap 12,
independent of the note counter and of the other rows of the column;
color_to_amplitude is max(r,g,b)/255, which is 0 on black and 1 on white. -/
theorem C5_amplitude :
    (∀ (px : Nat → Pixel) (oy : Nat) (rows : List Nat) (n0 : Nat),
      ∀ ev ∈ (scanNotes px oy rows n0).1,
        ev.amp = color_to_amplitude (px ev.y).r (px ev.y).g (px ev.y).b / 12) ∧
    (∀ r g b : Nat, color_to_amplitude r g b = ((max r (max g b) : Nat) : ℚ) / 255) ∧
    color_to_amplitude 0 0 0 = 0 ∧
    color_to_amplitude 255 255 255 = 1 := by
  refine ⟨?_, ?_, by norm_num [color_to_amplitude], by norm_num [color_to_amplitude]⟩
  · intro px oy rows
    induction rows with
    | nil =>
      intro n0 ev h
      simp [scanNotes] at h
    | cons y ys ih =>
      intro n0 ev h
      rw [scanNotes] at h
      split at h
      · simp at h
      · split at h
        · exact ih n0 ev h
        · rcases List.mem_cons.mp h with he | hm
          · subst he
            rfl
          · exact ih (n0 + 1) ev hm
  · intro r g b
    have hm : (if b < (if g < r then r else g) then (if g < r then r else g) else b)
        = max r (max g b) := by
      simp only [Nat.max_def]
      split_ifs <;> omega
    simp only [color_to_amplitude]
    rw [hm]

/-- Witness for claim C5: the single note scanned from a lone red pixel has
amplitude color_to_amplitude 255 0 0 divided by 12. -/
theorem C5_witness :
    (⟨0, rowKey 0 0, color_to_amplitude 255 0 0 / (max_notes : ℚ),
        color_to_wave 255 0 0⟩ : Note).amp
      = color_to_amplitude 255 0 0 / 12 :=
  C5_amplitude.1 (fun _ => ⟨255, 0, 0⟩) 0 [0] 0
    ⟨0, rowKey 0 0, color_to_amplitude 255 0 0 / (max_notes : ℚ), color_to_wave 255 0 0⟩
    (List.Mem.head _)

/-- Claim C8: the scanned rows of a column run from y_offset up to
min(H, y_offset + 88) - 1 inclusive, row y maps to pitch index 88 - (y -
y_offset), the topmost scanned row gets the highest index 88, and the index
strictly decreases down the scanned window. -/
theorem C8_scan_range (h oy : Nat) (hy : oy < h) :
    end_y h oy = min h (oy + 88) ∧
    scanRows h oy = List.range' oy (min h (oy + 88) - oy) ∧
    (∀ y, rowKey oy y = 88 - (y - oy)) ∧
    rowKey oy oy = 88 ∧
    (∀ y, oy ≤ y → y + 1 ∈ scanRows h oy → rowKey oy (y + 1) < rowKey oy y) := by
  have he : end_y h oy = min h (oy + 88) := by
    unfold end_y num_keys
    rw [Nat.min_def]
    split_ifs <;> omega
  refine ⟨he, by rw [scanRows, he], fun y => rfl, ?_, ?_⟩
  · unfold rowKey num_keys
    omega
  · intro y hle hmem
    rw [scanRows, he] at hmem
    have hb := List.mem_range'_1.mp hmem
    unfold rowKey num_keys
    omega

/-- Witness for claim C8 on a 90-row image with y offset 2. -/
theorem C8_witness : end_y 90 2 = min 90 (2 + 88) :=
  (C8_scan_range 90 2 (by decide)).1

/-- Round toward zero, the semantics of the C float-to-integer cast. -/
noncomputable def realTrunc (x : ℝ) : ℤ :=
  if x < 0 then ⌈x⌉ else ⌊x⌋

/-- Two-complement truncation of an integer to the signed 8-bit range,
the native behavior of storing into an int8_t. -/
def wrap8 (z : ℤ) : ℤ :=
  (z + 128) % 256 - 128

/-- Embedding of the per-sample quantization int_buffer[i] =
(int8_t)(col_buffer[i] * INT8_MAX) with INT8_MAX = 127. -/
noncomputable def quantize (s : ℝ) : ℤ :=
  wrap8 (realTrunc (s * 127))

/-- Embedding of the quantization loop over one mixed column buffer. -/
noncomputable def quantizeColumn (buf : List ℝ) : List ℤ :=
  buf.map quantize

/-- Dispatch on the waveform kind, the switch inside generate_samples. -/
noncomputable def waveSample : Wave → ℝ → ℝ → ℝ
  | Wave.sine, t, f => sine t f
  | Wave.saw, t, f => saw t f
  | Wave.triangle, t, f => triangle t f
  | Wave.square, t, f => square t f

/-- Embedding of generate_samples: sample i is the chosen generator at time
t0 + (1/r) * i, scaled by the amplitude. -/
noncomputable def generate_samples (w : Wave) (t0 f a : ℝ) (r s : Nat) : List ℝ :=
  (List.range s).map (fun (i : Nat) => waveSample w (t0 + 1 / (r : ℝ) * (i : ℝ)) f * a)

/-- Embedding of the column mixing in process: start from the calloc-zeroed
buffer of length spp and add, in scan order, the synthesized buffer of every
note event the row scan produced. -/
noncomputable def mixColumn (px : Nat → Pixel) (oy : Nat) (rows : List Nat)
    (t : ℝ) (rate spp : Nat) : List ℝ :=
  ((scanNotes px oy rows 0).1).foldl
    (fun buf ev =>
      List.zipWith (fun u v => u + v) buf
        (generate_samples ev.wave t (key_to_frequency (ev.key : ℤ)) ((ev.amp : ℚ) : ℝ) rate spp))
    (List.replicate spp 0)

/-- A decoded image: width, height and a pixel accessor indexed x then y. -/
structure Image where
  w : Nat
  h : Nat
  px : Nat → Nat → Pixel

/-- Embedding of the column loop of process: each column is mixed at the
current time cursor, quantized, appended to the stream, and the cursor
advances by spp / rate seconds. -/
noncomputable def driveColumns (img : Image) (rate spp oy : Nat) (rows : List Nat) :
    List Nat → ℝ → List ℤ
  | [], _ => []
  | x :: xs, t =>
    quantizeColumn (mixColumn (fun y => img.px x y) oy rows t rate spp)
      ++ driveColumns img rate spp oy rows xs (t + (spp : ℝ) / (rate : ℝ))

/-- The full audio stream of one successful run: columns from ox to w - 1,
starting at time 0, over the scanned pitch rows. -/
noncomputable def processSamples (img : Image) (rate spp ox oy : Nat) : List ℤ :=
  driveColumns img rate spp oy (scanRows img.h oy) (List.range' ox (img.w - ox)) 0

lemma wrap8_bounds (z : ℤ) : -128 ≤ wrap8 z ∧ wrap8 z ≤ 127 := by
  unfold wrap8
  omega

lemma wrap8_eq_self (z : ℤ) (h1 : -128 ≤ z) (h2 : z ≤ 127) : wrap8 z = z := by
  unfold wrap8
  omega

lemma quantize_zero : quantize 0 = 0 := by
  unfold quantize realTrunc
  rw [if_neg (by norm_num)]
  norm_num
  rfl

lemma length_generate_samples (w : Wave) (t0 f a : ℝ) (r s : Nat) :
    (generate_samples w t0 f a r s).length = s := by
  unfold generate_samples
  rw [List.length_map, List.length_range]

lemma length_mixColumn (px : Nat → Pixel) (oy : Nat) (rows : List Nat)
    (t : ℝ) (rate spp : Nat) : (mixColumn px oy rows t rate spp).length = spp := by
  unfold mixColumn
  have h : ∀ (evs : List Note) (buf : List ℝ), buf.length = spp →
      (evs.foldl
        (fun buf ev =>
          List.zipWith (fun u v => u + v) buf
            (generate_samples ev.wave t (key_to_frequency (ev.key : ℤ))
              ((ev.amp : ℚ) : ℝ) rate spp)) buf).length = spp := by
    intro evs
    induction evs with
    | nil => intro buf hb; simpa using hb
    | cons e es ih =>
      intro buf hb
      apply ih
      rw [List.length_zipWith, hb, length_generate_samples]
      omega
  exact h _ _ (List.length_replicate _ _)

lemma length_driveColumns (img : Image) (rate spp oy : Nat) (rows : List Nat) :
    ∀ (xs : List Nat) (t : ℝ),
      (driveColumns img rate spp oy rows xs t).length = xs.length * spp := by
  intro xs
  induction xs with
  | nil => intro t; simp [driveColumns]
  | cons x xs ih =>
    intro t
    unfold driveColumns
    rw [List.length_append, ih]
    unfold quantizeColumn
    rw [List.length_map, length_mixColumn, List.length_cons]
    ring

lemma scanNotes_all_black (px : Nat → Pixel) (oy : Nat) :
    ∀ (rows : List Nat) (n0 : Nat), n0 ≤ max_notes →
      (∀ y ∈ rows, (px y).r = 0 ∧ (px y).g = 0 ∧ (px y).b = 0) →
      scanNotes px oy rows n0 = ([], n0, false) := by
  intro rows
  induction rows with
  | nil => intro n0 hc hb; rfl
  | cons y ys ih =>
    intro n0 hc hb
    rw [scanNotes]
    rw [if_neg (by omega), if_pos (hb y (List.mem_cons_self y ys))]
    exact ih n0 hc (fun z hz => hb z (List.mem_cons_of_mem y hz))

lemma mem_driveColumns_bounds (img : Image) (rate spp oy : Nat) (rows : List Nat) :
    ∀ (xs : List Nat) (t : ℝ), ∀ b ∈ driveColumns img rate spp oy rows xs t,
      -128 ≤ b ∧ b ≤ 127 := by
  intro xs
  induction xs with
  | nil => intro t b hb; simp [driveColumns] at hb
  | cons x xs ih =>
    intro t b hb
    unfold driveColumns at hb
    rcases List.mem_append.mp hb with hq | hr
    · unfold quantizeColumn at hq
      obtain ⟨s, _, hs⟩ := List.mem_map.mp hq
      rw [← hs]
      exact wrap8_bounds _
    · exact ih _ b hr

/-- Claim C7: the quantizer turns each mixed sample into exactly one signed
8-bit value; for samples in [-1, 1] that value is the round-toward-zero cast
of sample * 127, and out-of-range samples are not clamped: sample 3/2 maps
to -66 by native wraparound rather than to the saturation value 127. -/
theorem C7_quantizer :
    (∀ buf : List ℝ, quantizeColumn buf = buf.map quantize ∧
      (quantizeColumn buf).length = buf.length) ∧
    (∀ s : ℝ, -1 ≤ s → s ≤ 1 → quantize s = realTrunc (s * 127)) ∧
    quantize (3 / 2) = -66 ∧ ((-66 : ℤ) ≠ 127) := by
  refine ⟨fun buf => ⟨rfl, by simp [quantizeColumn]⟩, ?_, ?_, by decide⟩
  · intro s hlo hhi
    have hxlo : (-127 : ℝ) ≤ s * 127 := by nlinarith
    have hxhi : s * 127 ≤ 127 := by nlinarith
    have hb : -127 ≤ realTrunc (s * 127) ∧ realTrunc (s * 127) ≤ 127 := by
      unfold realTrunc
      split_ifs with hneg
      · constructor
        · have h1 : ((-127 : ℤ) : ℝ) ≤ s * 127 := by exact_mod_cast hxlo
          calc (-127 : ℤ) = ⌈((-127 : ℤ) : ℝ)⌉ := by rw [Int.ceil_intCast]
            _ ≤ ⌈s * 127⌉ := Int.ceil_le_ceil h1
        · exact Int.ceil_le.mpr (by exact_mod_cast hxhi)
      · constructor
        · have h0 : (0 : ℤ) ≤ ⌊s * 127⌋ := Int.le_floor.mpr (by push_cast; linarith)
          omega
        · calc ⌊s * 127⌋ ≤ ⌊((127 : ℤ) : ℝ)⌋ :=
              Int.floor_le_floor (by exact_mod_cast hxhi)
            _ = 127 := by rw [Int.floor_intCast]
    exact wrap8_eq_self _ (by omega) hb.2
  · have hfl : realTrunc ((3 : ℝ) / 2 * 127) = 190 := by
      unfold realTrunc
      rw [if_neg (by norm_num)]
      refine Int.floor_eq_iff.mpr ⟨by norm_num, by norm_num⟩
    unfold quantize
    rw [hfl]
    decide

/-- Witness for claim C7 at the in-range sample 1/2. -/
theorem C7_witness : quantize (1 / 2) = realTrunc (1 / 2 * 127) :=
  C7_quantizer.2.1 (1 / 2) (by norm_num) (by norm_num)

/-- Claim C9: a successful run on width w with valid offsets processes the
columns ox to w - 1 and emits exactly (w - ox) * spp samples, each fitting
one signed byte, and a column whose scanned pitch range is entirely black
contributes spp zero samples. -/
theorem C9_output (img : Image) (rate spp ox oy : Nat) (hx : ox < img.w) :
    (processSamples img rate spp ox oy).length = (img.w - ox) * spp ∧
    (∀ x t, (∀ y ∈ scanRows img.h oy,
        (img.px x y).r = 0 ∧ (img.px x y).g = 0 ∧ (img.px x y).b = 0) →
      quantizeColumn (mixColumn (fun y => img.px x y) oy (scanRows img.h oy) t rate spp)
        = List.replicate spp 0) ∧
    (∀ b ∈ processSamples img rate spp ox oy, -128 ≤ b ∧ b ≤ 127) := by
  refine ⟨?_, ?_, ?_⟩
  · unfold processSamples
    rw [length_driveColumns, List.length_range']
  · intro x t hblack
    have hscan : scanNotes (fun y => img.px x y) oy (scanRows img.h oy) 0 = ([], 0, false) :=
      scanNotes_all_black _ oy _ 0 (by unfold max_notes; omega) hblack
    unfold mixColumn
    rw [hscan]
    simp [quantizeColumn, quantize_zero]
  · intro b hb
    exact mem_driveColumns_bounds img rate spp oy _ _ _ b hb

/-- Witness for claim C9 on a 1 by 1 all-black image with two samples per
column. -/
theorem C9_witness :
    (processSamples ⟨1, 1, fun _ _ => ⟨0, 0, 0⟩⟩ 48000 2 0 0).length = (1 - 0) * 2 :=
  (C9_output ⟨1, 1, fun _ _ => ⟨0, 0, 0⟩⟩ 48000 2 0 0 (by decide)).1

/-- Outcome of process_check. The ub outcome stands for the undefined
behavior of calling strcmp on a null pointer. -/
inductive CheckResult
  | ok
  | errSame
  | errNullIn
  | errNullOut
  | errRate
  | errSpp
  | ub
  deriving DecidableEq

/-- The strcmp equality test: defined only when both C strings are non-null;
a null argument is undefined behavior, modelled as none. -/
def strcmpEq : Option String → Option String → Option Bool
  | some a, some b => some (a == b)
  | _, _ => none

/-- Embedding of process_check in source order: the strcmp comparison of the
two filenames runs first, then the null tests of the input and output
filenames, then the zero tests of rate and samples per pixel. -/
def process_check (inF outF : Option String) (rate spp : Nat) : CheckResult :=
  match strcmpEq inF outF with
  | none => CheckResult.ub
  | some true => CheckResult.errSame
  | some false =>
    if inF = none then CheckResult.errNullIn
    else if outF = none then CheckResult.errNullOut
    else if rate = 0 then CheckResult.errRate
    else if spp = 0 then CheckResult.errSpp
    else CheckResult.ok

/-- Observable steps of one process run: an error report to stderr, the
image decode attempt, opening the output file, and writing one column. -/
inductive Ev
  | reportErr
  | decode
  | openOut
  | writeCol (x : Nat)
  deriving DecidableEq

/-- Result of one process run. -/
inductive PRes
  | ok
  | checkFail
  | decodeFail
  | offsetXFail
  | offsetYFail
  | openFail
  deriving DecidableEq

/-- Embedding of the control flow of process as an event trace: parameter
checks first (reporting only in verbose mode), then the decode attempt, then
the two offset checks with their unconditional reports, then opening the
output file, then the column loop. The decode result and the success of
fopen are oracles standing for the external collaborators. -/
def processTrace (inF outF : Option String) (rate spp ox oy : Nat) (v : Bool)
    (decodeRes : Option (Nat × Nat)) (openOk : Bool) : List Ev × PRes :=
  if process_check inF outF rate spp = CheckResult.ok then
    match decodeRes with
    | none => ([Ev.decode, Ev.reportErr], PRes.decodeFail)
    | some wh =>
      if wh.1 ≤ ox then ([Ev.decode, Ev.reportErr], PRes.offsetXFail)
      else if wh.2 ≤ oy then ([Ev.decode, Ev.reportErr], PRes.offsetYFail)
      else if openOk then
        ([Ev.decode, Ev.openOut] ++ (List.range' ox (wh.1 - ox)).map Ev.writeCol, PRes.ok)
      else ([Ev.decode, Ev.openOut, Ev.reportErr], PRes.openFail)
  else ((if v then [Ev.reportErr] else []), PRes.checkFail)

/-- The error report happens before any decode attempt: the report event is
in the trace prefix that precedes the first decode event. This is the
ordering property the claim asserts for configuration errors. -/
def reportedBeforeDecode (tr : List Ev) : Prop :=
  Ev.reportErr ∈ tr.takeWhile (fun e => !(decide (e = Ev.decode)))

/-- Claim C2 counterexample: a run with x offset 5 on a 2 by 2 image fails
on the offset check, but its trace is decode followed by the report, so the
configuration error is not reported before the decode attempt. -/
theorem C2_counterexample :
    (processTrace (some "a") (some "b") 48000 12000 5 0 false (some (2, 2)) true).2
        = PRes.offsetXFail ∧
    (processTrace (some "a") (some "b") 48000 12000 5 0 false (some (2, 2)) true).1
        = [Ev.decode, Ev.reportErr] ∧
    ¬ reportedBeforeDecode
        (processTrace (some "a") (some "b") 48000 12000 5 0 false (some (2, 2)) true).1 := by
  refine ⟨by decide, by decide, ?_⟩
  unfold reportedBeforeDecode
  decide

/-- Claim C2 as amended: when the parameter checks pass, the image decodes
with x offset at least the width or y offset at least the height, the run
fails fatally, the error is reported after the decode attempt but before any
open or write of the output, and no output is produced. -/
theorem C2_amended (inF outF : Option String) (rate spp ox oy : Nat) (v : Bool)
    (w h : Nat) (openOk : Bool)
    (hcheck : process_check inF outF rate spp = CheckResult.ok)
    (hoff : w ≤ ox ∨ h ≤ oy) :
    (processTrace inF outF rate spp ox oy v (some (w, h)) openOk).1
        = [Ev.decode, Ev.reportErr] ∧
    (processTrace inF outF rate spp ox oy v (some (w, h)) openOk).2 ≠ PRes.ok ∧
    Ev.openOut ∉ (processTrace inF outF rate spp ox oy v (some (w, h)) openOk).1 ∧
    (∀ x, Ev.writeCol x ∉ (processTrace inF outF rate spp ox oy v (some (w, h)) openOk).1) := by
  unfold processTrace
  rw [if_pos hcheck]
  dsimp only
  by_cases hx : w ≤ ox
  · rw [if_pos hx]
    refine ⟨rfl, by decide, by decide, fun x => by simp⟩
  · have hy : h ≤ oy := by
      rcases hoff with h1 | h1
      · exact absurd h1 hx
      · exact h1
    rw [if_neg hx, if_pos hy]
    refine ⟨rfl, by decide, by decide, fun x => by simp⟩

/-- Witness for claim C2 as amended, at a concrete failing run. -/
theorem C2_witness :
    (processTrace (some "in") (some "out") 48000 12000 9 0 false (some (3, 3)) true).1
      = [Ev.decode, Ev.reportErr] :=
  (C2_amended (some "in") (some "out") 48000 12000 9 0 false 3 3 true
    (by decide) (Or.inl (by decide))).1

/-- Embedding of the tail of main: the input filename argv[optind] is always
a non-null string, and the output filename option is handed to process, and
hence to process_check, unchanged even when it was never supplied. -/
def mainInvoke (inF : String) (outF : Option String) (rate spp : Nat) : CheckResult :=
  process_check (some inF) outF rate spp

/-- Claim C10: with no output filename, main reaches process_check with a
null output pointer, where the strcmp runs first and is undefined behavior;
consequently no input can ever reach the null-pointer branches of
process_check, so the invalid input filename and invalid output filename
reports are dead code. -/
theorem C10_dead_null_checks :
    (∀ (inF : String) (rate spp : Nat), mainInvoke inF none rate spp = CheckResult.ub) ∧
    (∀ (inF outF : Option String) (rate spp : Nat),
      process_check inF outF rate spp ≠ CheckResult.errNullIn ∧
      process_check inF outF rate spp ≠ CheckResult.errNullOut) := by
  constructor
  · intro inF rate spp
    rfl
  · intro inF outF rate spp
    cases inF with
    | none => exact ⟨by simp [process_check, strcmpEq], by simp [process_check, strcmpEq]⟩
    | some a =>
      cases outF with
      | none => exact ⟨by simp [process_check, strcmpEq], by simp [process_check, strcmpEq]⟩
      | some b =>
        simp only [process_check, strcmpEq]
        cases a == b with
        | false =>
          dsimp only
          constructor <;> (split_ifs <;> simp_all)
        | true =>
          dsimp only
          constructor <;> simp

end ImgToSound
